import Mathlib

/-!
# LittleLotus audio core — verification development

Shallow embedding of the client-side audio engine of the LittleLotus
meditation app, and proofs about it.

Embedded units (times, durations, gains and samples are rationals; the
hardware clock is an explicit parameter threaded through each operation):

* `useAudioPlayer` transport hook (`src/unnamed/part_007`, and its variant
  with volume control `src/unnamed/part_005`; the transport logic of the
  two files is identical, the volume/gain fields come from `part_005`):
  `playAudio`, `togglePlay`, `seek`, `restart`, the progress loop body
  (`tick`) and `setVolume`.
* `playAmbience` / `renderSessionToWav` (`src/unnamed/part_012`):
  node-graph construction per genre, gain automation schedules and the
  teardown closure.
* `useLiveSession.playAudioBuffer` (`src/unnamed/part_007`): the live
  playback scheduling queue.
* `pcmFloat32ToBase64` (`src/unnamed/part_007`): float → 16-bit PCM
  sample conversion (the base64 wrapping is not modelled; the claims are
  about the integer samples).
-/

namespace LittleLotus

/-! ## Transport player state (`useAudioPlayer`)

State components mirror the hook's refs and React state:
`isPlaying`, `startTimeRef`, `pauseTimeRef`, `progress`, and — in the
`part_005` variant — `volume` plus the live gain node.  The gain node is
modelled by its current target value (`some v` while a graph is alive,
`none` otherwise).  The audio buffer is a fixed parameter of the hook
instance, modelled as `Option ℚ` carrying its duration. -/

structure PlayerState where
  isPlaying : Bool
  startTime : ℚ
  pauseTime : ℚ
  progress  : ℚ
  volume    : ℚ
  gainValue : Option ℚ
deriving Repr, DecidableEq

/-- Initial hook state: `useState(false)`, refs at 0, `useState(1)` for
volume, no graph built yet. -/
def initState : PlayerState :=
  { isPlaying := false, startTime := 0, pauseTime := 0, progress := 0
    volume := 1, gainValue := none }

/-- The `duration` React state: set from `buffer.duration` by the effect
when a buffer is present, otherwise left at its initial value 0. -/
def durationOf (buffer : Option ℚ) : ℚ := buffer.getD 0

/-- `stopAudio`: stops and disconnects the source and gain nodes (swallowing
errors from already-stopped nodes) and cancels the animation frame.  In the
model only the gain-node reference is observable state. -/
def stopAudio (s : PlayerState) : PlayerState := { s with gainValue := none }

/-- `playAudio(offset)`: no-op when no buffer is loaded; otherwise tears the
old graph down, builds a fresh source → gain → destination chain with the
gain initialised to the current volume (`gain.setValueAtTime(volume, now)`),
records `startTimeRef = audioContext.currentTime`, `pauseTimeRef = offset`,
starts the source at `offset` and sets `isPlaying`. -/
def playAudio (buffer : Option ℚ) (offset now : ℚ) (s : PlayerState) : PlayerState :=
  match buffer with
  | none => s
  | some _ =>
    let s' := stopAudio s
    { s' with isPlaying := true, startTime := now, pauseTime := offset
              gainValue := some s'.volume }

/-- One iteration of the progress loop scheduled by `playAudio` via
`requestAnimationFrame`.  A frame is pending exactly while `isPlaying`
(every teardown path either cancels the frame and clears `isPlaying`, or
immediately re-enters `playAudio`), so the loop body is gated on it. -/
def tick (buffer : Option ℚ) (now : ℚ) (s : PlayerState) : PlayerState :=
  if s.isPlaying then
    let elapsed := now - s.startTime + s.pauseTime
    let d := durationOf buffer
    if elapsed < d then
      { s with progress := min elapsed d }
    else
      { s with progress := 0, pauseTime := 0, isPlaying := false }
  else s

/-- `togglePlay`: pause commits `pauseTimeRef += now - startTimeRef` after
tearing the graph down; play resumes from the stored offset. -/
def togglePlay (buffer : Option ℚ) (now : ℚ) (s : PlayerState) : PlayerState :=
  if s.isPlaying then
    let s' := stopAudio s
    { s' with pauseTime := s'.pauseTime + (now - s'.startTime), isPlaying := false }
  else
    playAudio buffer s.pauseTime now s

/-- `seek(seconds)`: computes the current position (live formula while
playing, stored offset while paused), clamps `pos + seconds` to
`[0, duration]`, then restarts at the clamp while playing or stores it
(and publishes it as progress) while paused. -/
def seek (buffer : Option ℚ) (seconds now : ℚ) (s : PlayerState) : PlayerState :=
  let currentPos := if s.isPlaying then now - s.startTime + s.pauseTime else s.pauseTime
  let newPos := max 0 (min (currentPos + seconds) (durationOf buffer))
  if s.isPlaying then
    playAudio buffer newPos now s
  else
    { s with pauseTime := newPos, progress := newPos }

/-- `restart`: replays from 0 while playing, else resets offset and
progress to 0. -/
def restart (buffer : Option ℚ) (now : ℚ) (s : PlayerState) : PlayerState :=
  if s.isPlaying then
    playAudio buffer 0 now s
  else
    { s with pauseTime := 0, progress := 0 }

/-- `setVolume(v)` (the raw state setter, `part_005`) together with the
effect that fires on a volume change: if a gain node is alive, its gain is
retargeted to the new volume (`setTargetAtTime(volume, now, 0.05)`). -/
def setVolume (v : ℚ) (s : PlayerState) : PlayerState :=
  let s' := { s with volume := v }
  match s'.gainValue with
  | some _ => { s' with gainValue := some v }
  | none => s'

/-- The elapsed position of the transport, per the spec's formula:
the live hardware-clock expression while playing, the committed offset
while paused. -/
def elapsedAt (now : ℚ) (s : PlayerState) : ℚ :=
  if s.isPlaying then now - s.startTime + s.pauseTime else s.pauseTime

/-- Externally triggerable transport events: the UI operations plus a
progress-loop animation frame. -/
inductive TransportEvent where
  | toggle
  | seekBy (seconds : ℚ)
  | restart
  | tick
deriving Repr, DecidableEq

def stepEvent (buffer : Option ℚ) (e : TransportEvent) (now : ℚ)
    (s : PlayerState) : PlayerState :=
  match e with
  | .toggle => togglePlay buffer now s
  | .seekBy seconds => seek buffer seconds now s
  | .restart => restart buffer now s
  | .tick => tick buffer now s

/-- Run a timed trace of transport events. -/
def runTrace (buffer : Option ℚ) (tr : List (ℚ × TransportEvent))
    (s : PlayerState) : PlayerState :=
  tr.foldl (fun st p => stepEvent buffer p.2 p.1 st) s

/-- A trace is chronological when its timestamps are non-decreasing and
start no earlier than `t0` (the hardware clock never goes backwards). -/
def Chrono : ℚ → List (ℚ × TransportEvent) → Prop
  | _, [] => True
  | t0, p :: rest => t0 ≤ p.1 ∧ Chrono p.1 rest

/-- Internal invariant of the transport state at clock time `t`:
the committed offset and the published progress are non-negative, the
published progress never exceeds the duration, and while playing the
interval start lies in the past. -/
def Inv (D t : ℚ) (s : PlayerState) : Prop :=
  0 ≤ s.pauseTime ∧ 0 ≤ s.progress ∧ s.progress ≤ D ∧
    (s.isPlaying = true → s.startTime ≤ t)

/-- The clock value after processing a trace (the last timestamp, or the
starting clock for the empty trace). -/
def endTime (t0 : ℚ) : List (ℚ × TransportEvent) → ℚ
  | [] => t0
  | p :: rest => endTime p.1 rest

theorem durationOf_some (D : ℚ) : durationOf (some D) = D := rfl

theorem inv_init {D : ℚ} (hD : 0 ≤ D) (t : ℚ) : Inv D t initState := by
  refine ⟨le_refl 0, le_refl 0, hD, ?_⟩
  intro h
  simp [initState] at h

/-- Every transport event preserves the invariant as the clock moves
forward. -/
theorem inv_step {D : ℚ} (hD : 0 ≤ D) {t t' : ℚ} (ht : t ≤ t')
    {s : PlayerState} (h : Inv D t s) (e : TransportEvent) :
    Inv D t' (stepEvent (some D) e t' s) := by
  obtain ⟨hp, hg0, hgD, hst⟩ := h
  have hclamp0 : ∀ x : ℚ, 0 ≤ max 0 (min x D) := fun x => le_max_left 0 _
  have hclampD : ∀ x : ℚ, max 0 (min x D) ≤ D := fun x => max_le hD (min_le_right x D)
  cases e with
  | toggle =>
    by_cases hpl : s.isPlaying
    · have hts : s.startTime ≤ t' := le_trans (hst hpl) ht
      simp only [stepEvent, togglePlay, hpl, if_true, stopAudio, Inv]
      refine ⟨by linarith, hg0, hgD, by simp⟩
    · simp only [stepEvent, togglePlay, hpl, if_false, playAudio, stopAudio, Inv]
      exact ⟨hp, hg0, hgD, fun _ => le_refl t'⟩
  | seekBy seconds =>
    by_cases hpl : s.isPlaying
    · simp only [stepEvent, seek, hpl, if_true, playAudio, stopAudio, durationOf_some, Inv]
      exact ⟨hclamp0 _, hg0, hgD, fun _ => le_refl t'⟩
    · simp only [stepEvent, seek, hpl, if_false, durationOf_some, Inv]
      exact ⟨hclamp0 _, hclamp0 _, hclampD _, by simp [hpl]⟩
  | restart =>
    by_cases hpl : s.isPlaying
    · simp only [stepEvent, restart, hpl, if_true, playAudio, stopAudio, Inv]
      exact ⟨le_refl 0, hg0, hgD, fun _ => le_refl t'⟩
    · simp only [stepEvent, restart, hpl, if_false, Inv]
      exact ⟨le_refl 0, le_refl 0, hD, by simp [hpl]⟩
  | tick =>
    by_cases hpl : s.isPlaying
    · have hts : s.startTime ≤ t' := le_trans (hst hpl) ht
      simp only [stepEvent, tick, hpl, if_true, durationOf_some, Inv]
      by_cases hlt : t' - s.startTime + s.pauseTime < D
      · rw [if_pos hlt]
        exact ⟨hp, le_min (by linarith) hD, min_le_right _ _, fun _ => hts⟩
      · rw [if_neg hlt]
        exact ⟨le_refl 0, le_refl 0, hD, by simp⟩
    · simp only [stepEvent, tick, hpl, if_neg, Inv]
      exact ⟨hp, hg0, hgD, fun hh => absurd hh hpl⟩

/-- The invariant holds after any chronological trace. -/
theorem inv_runTrace {D : ℚ} (hD : 0 ≤ D) :
    ∀ (tr : List (ℚ × TransportEvent)) (t0 : ℚ) (s : PlayerState),
      Chrono t0 tr → Inv D t0 s → Inv D (endTime t0 tr) (runTrace (some D) tr s)
  | [], _, _, _, h => h
  | p :: rest, _, s, hc, h =>
    inv_runTrace hD rest p.1 (stepEvent (some D) p.2 p.1 s) hc.2
      (inv_step hD hc.1 h p.2)

/-- Immediately after `restart` the elapsed position is 0, whatever the
prior state: while playing it re-points the source to offset 0 with the
interval starting now; while paused it zeroes the stored offset. -/
theorem elapsedAt_restart (D t : ℚ) (s : PlayerState) :
    elapsedAt t (restart (some D) t s) = 0 := by
  by_cases hpl : s.isPlaying <;>
    simp [restart, hpl, playAudio, stopAudio, elapsedAt]

/-- `seek` publishes exactly the clamp of `elapsed + delta` to
`[0, duration]`, in both the playing and the paused branch. -/
theorem elapsedAt_seek (D seconds t : ℚ) (s : PlayerState) :
    elapsedAt t (seek (some D) seconds t s) =
      max 0 (min (elapsedAt t s + seconds) D) := by
  by_cases hpl : s.isPlaying <;>
    simp [seek, hpl, playAudio, stopAudio, elapsedAt, durationOf_some]

/-- C1 (counterexample): the elapsed position, as the claim defines it
(committed offset while paused), is NOT always within `[0, D]`.  With a
1-second buffer, start playback at clock 0 and pause at clock 5 with no
intervening animation frame (e.g. a background tab): `togglePlay` commits
`pauseTime += now - startTime = 5`, so the paused elapsed position is 5,
outside `[0, 1]` — yet the trace is chronological. -/
theorem paused_offset_exceeds_duration :
    elapsedAt 5 (runTrace (some 1)
        [((0:ℚ), TransportEvent.toggle), (5, TransportEvent.toggle)] initState) = 5 ∧
    ¬ elapsedAt 5 (runTrace (some 1)
        [((0:ℚ), TransportEvent.toggle), (5, TransportEvent.toggle)] initState) ≤ 1 ∧
    Chrono 0 [((0:ℚ), TransportEvent.toggle), (5, TransportEvent.toggle)] := by
  refine ⟨?_, ?_, ?_⟩ <;>
    norm_num [runTrace, stepEvent, togglePlay, playAudio, stopAudio,
      elapsedAt, initState, Chrono]

/-- C1 (amended): over every chronological sequence of
`togglePlay`/`seek`/`restart` calls and progress-loop frames, the
published progress stays in `[0, D]`, and immediately after `restart()`
the elapsed position equals 0 regardless of whether the player was
playing or paused.  (The committed pause offset itself can exceed `D`;
see `paused_offset_exceeds_duration`.) -/
theorem progress_in_range_restart_resets (D : ℚ) (hD : 0 ≤ D)
    (tr : List (ℚ × TransportEvent)) (hc : Chrono 0 tr) (t : ℚ) :
    0 ≤ (runTrace (some D) tr initState).progress ∧
    (runTrace (some D) tr initState).progress ≤ D ∧
    elapsedAt t (restart (some D) t (runTrace (some D) tr initState)) = 0 := by
  have h := inv_runTrace hD tr 0 initState hc (inv_init hD 0)
  exact ⟨h.2.1, h.2.2.1, elapsedAt_restart D t _⟩

theorem progress_in_range_restart_resets_witness :
    (0 ≤ (1:ℚ)) ∧ Chrono 0 [((0:ℚ), TransportEvent.toggle), (2, TransportEvent.tick)] ∧
    (0 ≤ (runTrace (some 1)
        [((0:ℚ), TransportEvent.toggle), (2, TransportEvent.tick)] initState).progress ∧
     (runTrace (some 1)
        [((0:ℚ), TransportEvent.toggle), (2, TransportEvent.tick)] initState).progress ≤ 1 ∧
     elapsedAt 3 (restart (some 1) 3 (runTrace (some 1)
        [((0:ℚ), TransportEvent.toggle), (2, TransportEvent.tick)] initState)) = 0) :=
  ⟨by norm_num, by norm_num [Chrono],
    progress_in_range_restart_resets 1 (by norm_num) _ (by norm_num [Chrono]) 3⟩

/-- C3 (counterexample): `seek(-1000)` need not land on 0.  With
`duration = 30`, start playing at clock 0 and seek at clock 2000 (the
clock ran far past the end without a progress frame): the current
position computes to 2000, `2000 - 1000 = 1000` clamps to 30, so the
elapsed position after `seek(-1000)` is 30, not 0. -/
theorem seek_minus1000_lands_on_30 :
    elapsedAt 2000 (runTrace (some 30)
        [((0:ℚ), TransportEvent.toggle), (2000, TransportEvent.seekBy (-1000))]
        initState) = 30 ∧
    (30:ℚ) ≠ 0 ∧
    Chrono 0 [((0:ℚ), TransportEvent.toggle), (2000, TransportEvent.seekBy (-1000))] := by
  refine ⟨?_, by norm_num, ?_⟩ <;>
    norm_num [runTrace, stepEvent, togglePlay, seek, playAudio, stopAudio,
      elapsedAt, initState, Chrono, durationOf]

/-- C3 (amended): `seek(delta)` publishes exactly the clamp of
`elapsed + delta` to `[0, duration]`.  With `duration = 30`, from any
state (playing or paused) whose current elapsed position lies in
`[0, 1000]`, `seek(+1000)` yields elapsed 30 and `seek(-1000)` yields
elapsed 0; while playing the graph is rebuilt at the clamped offset with
the interval starting now, while paused only the stored offset and the
published progress change. -/
theorem seek_clamps (s : PlayerState) (t : ℚ)
    (h0 : 0 ≤ elapsedAt t s) (h1 : elapsedAt t s ≤ 1000) :
    elapsedAt t (seek (some 30) 1000 t s) = 30 ∧
    elapsedAt t (seek (some 30) (-1000) t s) = 0 ∧
    (∀ D delta : ℚ, elapsedAt t (seek (some D) delta t s) =
        max 0 (min (elapsedAt t s + delta) D)) ∧
    (s.isPlaying = true → (seek (some 30) (-1000) t s).isPlaying = true ∧
        (seek (some 30) (-1000) t s).startTime = t ∧
        (seek (some 30) (-1000) t s).pauseTime = 0) ∧
    (s.isPlaying = false → seek (some 30) (-1000) t s =
        { s with pauseTime := 0, progress := 0 }) := by
  have hm : max 0 (min (elapsedAt t s + (-1000)) 30) = 0 := by
    rw [min_eq_left (by linarith), max_eq_left (by linarith)]
  refine ⟨?_, ?_, fun D delta => elapsedAt_seek D delta t s, ?_, ?_⟩
  · rw [elapsedAt_seek, min_eq_right (by linarith), max_eq_right (by norm_num)]
  · rw [elapsedAt_seek, hm]
  · intro hpl
    simp only [elapsedAt, hpl, if_true] at hm
    simp [seek, elapsedAt, hpl, playAudio, stopAudio, durationOf_some, hm]
  · intro hpl
    simp only [elapsedAt, hpl, Bool.false_eq_true, if_false] at hm
    simp only [seek, hpl, Bool.false_eq_true, if_false, durationOf_some, hm]

theorem seek_clamps_witness :
    (0 ≤ elapsedAt 0 initState) ∧ (elapsedAt 0 initState ≤ 1000) ∧
    (elapsedAt 0 (seek (some 30) 1000 0 initState) = 30 ∧
     elapsedAt 0 (seek (some 30) (-1000) 0 initState) = 0 ∧
     (∀ D delta : ℚ, elapsedAt 0 (seek (some D) delta 0 initState) =
        max 0 (min (elapsedAt 0 initState + delta) D)) ∧
     (initState.isPlaying = true → (seek (some 30) (-1000) 0 initState).isPlaying = true ∧
        (seek (some 30) (-1000) 0 initState).startTime = 0 ∧
        (seek (some 30) (-1000) 0 initState).pauseTime = 0) ∧
     (initState.isPlaying = false → seek (some 30) (-1000) 0 initState =
        { initState with pauseTime := 0, progress := 0 })) :=
  ⟨by norm_num [elapsedAt, initState], by norm_num [elapsedAt, initState],
    seek_clamps initState 0 (by norm_num [elapsedAt, initState])
      (by norm_num [elapsedAt, initState])⟩

/-- C9: with no audio buffer loaded, every transport operation (and every
progress frame) is a silent no-op: any timed sequence of them leaves the
player exactly at its initial state (`isPlaying = false`, offset 0,
progress 0). -/
theorem no_buffer_transport_noop (tr : List (ℚ × TransportEvent)) :
    runTrace none tr initState = initState := by
  induction tr with
  | nil => rfl
  | cons p rest ih =>
    have hstep : stepEvent none p.2 p.1 initState = initState := by
      cases p.2 with
      | toggle => simp [stepEvent, togglePlay, playAudio, initState]
      | seekBy seconds =>
        have hms : max 0 (min ((0:ℚ) + seconds) 0) = 0 :=
          max_eq_left (min_le_right _ 0)
        simp [stepEvent, seek, playAudio, initState, durationOf, hms]
      | restart => simp [stepEvent, restart, initState]
      | tick => simp [stepEvent, tick, initState]
    show runTrace none rest (stepEvent none p.2 p.1 initState) = initState
    rw [hstep]
    exact ih

/-- C10: `setVolume(v)` stores `v` exactly, with no clamping for any
rational `v` (including `v < 0` and `v > 1`); a graph built afterwards
initialises its gain node to exactly `v`
(`gain.setValueAtTime(volume, now)`), and a volume change while a graph
is live retargets the live gain node to exactly `v`
(`setTargetAtTime(volume, now, 0.05)`). -/
theorem setVolume_no_clamp (v g offset now D : ℚ) (s : PlayerState) :
    (setVolume v s).volume = v ∧
    (playAudio (some D) offset now (setVolume v s)).gainValue = some v ∧
    (setVolume v { s with gainValue := some g }).gainValue = some v := by
  refine ⟨?_, ?_, ?_⟩
  · cases hg : s.gainValue <;> simp [setVolume, hg]
  · cases hg : s.gainValue <;> simp [setVolume, playAudio, stopAudio, hg]
  · simp [setVolume]

/-! ## Ambience synthesizer (`playAmbience`, `src/unnamed/part_012`)

The node graph built per genre is modelled by the list of nodes the
function pushes onto its `nodes` array, in creation order, together with
the `AudioParam` writes it performs and the gain-automation schedules on
the master gain node. -/

inductive MusicGenre where
  | TibetanBowls | AmbientSynth | NatureSounds | LoFi | NoMusic
deriving Repr, DecidableEq

inductive NodeKind where
  | gainNode | oscillator | bufferSource | biquadFilter
deriving Repr, DecidableEq

/-- Nodes with a `stop()` method (fire-once scheduled sources). -/
def isSourceNode : NodeKind → Bool
  | .oscillator => true
  | .bufferSource => true
  | _ => false

/-- Nodes created by the `playOsc` helper: an oscillator and its
per-voice gain. -/
def oscNodes : List NodeKind := [.oscillator, .gainNode]

/-- Nodes created by the `playNoise` helper: a looping noise buffer
source, a biquad filter and a per-voice gain. -/
def noiseNodes : List NodeKind := [.bufferSource, .biquadFilter, .gainNode]

/-- The `nodes` array of one `playAmbience` call, in creation order: the
master gain first, then the genre-specific subgraph (`nodes.push` calls
in the source). -/
def ambienceNodes : MusicGenre → List NodeKind
  | .TibetanBowls =>
      [.gainNode] ++ oscNodes ++ oscNodes ++ oscNodes ++ [.oscillator, .gainNode]
  | .AmbientSynth => [.gainNode] ++ oscNodes ++ oscNodes ++ oscNodes ++ [.biquadFilter]
  | .NatureSounds => [.gainNode] ++ noiseNodes ++ noiseNodes
  | .LoFi => [.gainNode] ++ noiseNodes ++ oscNodes ++ oscNodes ++ oscNodes ++ oscNodes
  | .NoMusic => [.gainNode]

/-- The master gain level each genre sets (`gain.gain.value = ...`); the
`NoMusic` branch leaves the node's default value 1.  This is
`originalGain`, the fade-in target. -/
def masterGainTarget : MusicGenre → ℚ
  | .TibetanBowls => 3/10
  | .AmbientSynth => 1/5
  | .NatureSounds => 3/20
  | .LoFi => 1/4
  | .NoMusic => 1

/-- Which `AudioParam` a value write or automation call targets. -/
inductive ParamTarget where
  | masterGain | destinationGain | oscFrequency | oscDetune | innerGain | filterFrequency
deriving Repr, DecidableEq

/-- Param writes of `playOsc`: `osc.frequency.value`, `osc.detune.value`,
`oscGain.gain.value`. -/
def oscWrites : List ParamTarget := [.oscFrequency, .oscDetune, .innerGain]

/-- Param writes of `playNoise`: `filter.frequency.value`,
`noiseGain.gain.value`. -/
def noiseWrites : List ParamTarget := [.filterFrequency, .innerGain]

/-- Every `AudioParam` write `playAmbience` performs for a genre, in
source order: the genre branch's writes followed by the fade-in schedule
(`setValueAtTime` then `linearRampToValueAtTime` on the master gain).
The destination bus's own gain parameter is never among them. -/
def ambienceParamWrites : MusicGenre → List ParamTarget
  | .TibetanBowls =>
      [.masterGain] ++ oscWrites ++ oscWrites ++ oscWrites
        ++ [.oscFrequency, .innerGain] ++ [.masterGain, .masterGain]
  | .AmbientSynth =>
      [.masterGain] ++ oscWrites ++ oscWrites ++ oscWrites ++ [.filterFrequency]
        ++ [.masterGain, .masterGain]
  | .NatureSounds =>
      [.masterGain] ++ noiseWrites ++ noiseWrites ++ [.masterGain, .masterGain]
  | .LoFi =>
      [.masterGain] ++ noiseWrites ++ oscWrites ++ oscWrites ++ oscWrites ++ oscWrites
        ++ [.masterGain, .masterGain]
  | .NoMusic => [.masterGain, .masterGain]

/-! ### Gain automation

Web Audio `AudioParam` automation restricted to the two calls the source
uses: `setValueAtTime` and `linearRampToValueAtTime`.  The value at time
`τ` is computed against the chronological event list, starting from the
most recent value `prevV` (set at `prevT`). -/

inductive AutomEvent where
  | setValue (t v : ℚ)
  | linearRamp (t v : ℚ)
deriving Repr, DecidableEq

/-- Evaluate an automation schedule at time `τ`: a `setValue` holds from
its time on; a `linearRamp` interpolates linearly from the previous
event's value to its target. -/
def automValue (prevT prevV : ℚ) : List AutomEvent → ℚ → ℚ
  | [], _ => prevV
  | AutomEvent.setValue t v :: rest, τ =>
      if τ < t then prevV else automValue t v rest τ
  | AutomEvent.linearRamp t v :: rest, τ =>
      if τ < t then
        (if τ ≤ prevT then prevV
         else prevV + (v - prevV) * (τ - prevT) / (t - prevT))
      else automValue t v rest τ

/-- The fade-in schedule `playAmbience` installs on the master gain at
start time `t0`: `setValueAtTime(0, time)` then
`linearRampToValueAtTime(originalGain, time + 2)`. -/
def fadeInEvents (g : MusicGenre) (t0 : ℚ) : List AutomEvent :=
  [.setValue t0 0, .linearRamp (t0 + 2) (masterGainTarget g)]

/-- The master gain's value at time `τ` after an ambience start at `t0`
(before the first event the param still reads `originalGain`). -/
def masterGainAt (g : MusicGenre) (t0 τ : ℚ) : ℚ :=
  automValue t0 (masterGainTarget g) (fadeInEvents g t0) τ

/-- The schedule `stop()` installs at stop time `ts` when the param
currently reads `v`: `cancelScheduledValues` (dropping every pending
event, so only this schedule remains), `setValueAtTime(v, ts)`,
`linearRampToValueAtTime(0, ts + 1)`. -/
def stopEvents (v ts : ℚ) : List AutomEvent :=
  [.setValue ts v, .linearRamp (ts + 1) 0]

/-- The master gain's value at time `τ` after `stop()` at `ts` from
current value `v`. -/
def stopGainAt (v ts τ : ℚ) : ℚ := automValue ts v (stopEvents v ts) τ

/-! ### Teardown

`stop()`'s `setTimeout` callback walks the `nodes` array: inside one
`try`, it calls `node.stop()` on oscillator/buffer-source nodes and then
`node.disconnect()`; any exception is caught and swallowed.  `stop()` on
an already-stopped node is modelled pessimistically as throwing
`InvalidStateError` (the situation the `try/catch` defends against); a
throw skips the `disconnect()` of that node, as in the source. -/

structure AmbNode where
  kind : NodeKind
  stopped : Bool
  connected : Bool
deriving Repr, DecidableEq

/-- The live node graph right after `playAmbience` returns: all nodes
connected, sources started and not yet stopped. -/
def startNodes (g : MusicGenre) : List AmbNode :=
  (ambienceNodes g).map fun k => ⟨k, false, true⟩

/-- The unguarded per-node teardown body (throws on re-stopping a
source). -/
def teardownNodeE (n : AmbNode) : Except String AmbNode := do
  let n' ←
    if isSourceNode n.kind then
      if n.stopped then Except.error "InvalidStateError"
      else Except.ok { n with stopped := true }
    else Except.ok n
  Except.ok { n' with connected := false }

/-- The guarded teardown: the `try { ... } catch (e) { /* ignore */ }`
around the body — an error leaves the node as it was and is swallowed. -/
def teardownNode (n : AmbNode) : AmbNode :=
  match teardownNodeE n with
  | .ok n' => n'
  | .error _ => n

/-- One run of the teardown callback over the whole `nodes` array. -/
def teardownAll (ns : List AmbNode) : List AmbNode := ns.map teardownNode

theorem masterGainAt_start (g : MusicGenre) (t0 : ℚ) : masterGainAt g t0 t0 = 0 := by
  simp only [masterGainAt, fadeInEvents, automValue]
  rw [if_neg (lt_irrefl t0), if_pos (by linarith : t0 < t0 + 2), if_pos (le_refl t0)]

theorem masterGainAt_mid (g : MusicGenre) (t0 : ℚ) :
    masterGainAt g t0 (t0 + 1) = masterGainTarget g / 2 := by
  simp only [masterGainAt, fadeInEvents, automValue]
  rw [if_neg (by linarith : ¬ t0 + 1 < t0), if_pos (by linarith : t0 + 1 < t0 + 2),
    if_neg (by linarith : ¬ t0 + 1 ≤ t0)]
  ring_nf

theorem masterGainAt_end (g : MusicGenre) (t0 : ℚ) :
    masterGainAt g t0 (t0 + 2) = masterGainTarget g := by
  simp only [masterGainAt, fadeInEvents, automValue]
  rw [if_neg (by linarith : ¬ t0 + 2 < t0), if_neg (lt_irrefl (t0 + 2))]

theorem stopGainAt_start (v ts : ℚ) : stopGainAt v ts ts = v := by
  simp only [stopGainAt, stopEvents, automValue]
  rw [if_neg (lt_irrefl ts), if_pos (by linarith : ts < ts + 1), if_pos (le_refl ts)]

theorem stopGainAt_end (v ts : ℚ) : stopGainAt v ts (ts + 1) = 0 := by
  simp only [stopGainAt, stopEvents, automValue]
  rw [if_neg (by linarith : ¬ ts + 1 < ts), if_neg (lt_irrefl (ts + 1))]

theorem stopGainAt_mid (v ts τ : ℚ) (h0 : ts < τ) (h1 : τ < ts + 1) :
    stopGainAt v ts τ = v - v * (τ - ts) := by
  simp only [stopGainAt, stopEvents, automValue]
  rw [if_neg (by linarith : ¬ τ < ts), if_pos h1, if_neg (by linarith : ¬ τ ≤ ts)]
  ring_nf

theorem masterGainTarget_pos (g : MusicGenre) : 0 < masterGainTarget g := by
  cases g <;> norm_num [masterGainTarget]

/-- C4 (counterexample): `playAmbience(ctx, Silence, bus)` does NOT
create zero nodes: the master gain node is created and connected into
the bus before the genre switch, for every genre including `NoMusic`. -/
theorem silence_creates_one_node :
    (ambienceNodes MusicGenre.NoMusic).length = 1 ∧
    ¬ (ambienceNodes MusicGenre.NoMusic).length = 0 := by decide

/-- C4 (amended): for the Silence genre, `playAmbience` creates exactly
one node — the master gain, connected into the destination bus — and
schedules only the fade-in automation (a `setValueAtTime` and a
`linearRampToValueAtTime`) on that node's gain; the returned `stop()` is
not a no-op (after the fade window the master gain is disconnected);
the destination bus's own gain parameter is never written. -/
theorem silence_master_gain_only :
    ambienceNodes MusicGenre.NoMusic = [NodeKind.gainNode] ∧
    ambienceParamWrites MusicGenre.NoMusic =
      [ParamTarget.masterGain, ParamTarget.masterGain] ∧
    ParamTarget.destinationGain ∉ ambienceParamWrites MusicGenre.NoMusic ∧
    teardownAll (startNodes MusicGenre.NoMusic) ≠ startNodes MusicGenre.NoMusic ∧
    ((teardownAll (startNodes MusicGenre.NoMusic)).all fun n => !n.connected) = true := by
  decide

/-- C5: starting any non-Silence ambience genre ramps the master gain
linearly from 0 at the start time to the genre's (positive) target at
start + 2 seconds — sampled at t=0, 1, 2 after start the values are
0, target/2, target: non-decreasing, reaching the target at t=2.
`stop()` at time `ts` ramps the gain linearly from its current value `v`
to 0 over 1 second, and after the fade window the teardown callback has
stopped every oscillator/buffer-source node and disconnected every node
of the graph. -/
theorem ambience_fade_timing (g : MusicGenre) (hg : g ≠ MusicGenre.NoMusic)
    (t0 ts v τ : ℚ) (hτ0 : ts < τ) (hτ1 : τ < ts + 1) :
    masterGainAt g t0 t0 = 0 ∧
    masterGainAt g t0 (t0 + 1) = masterGainTarget g / 2 ∧
    masterGainAt g t0 (t0 + 2) = masterGainTarget g ∧
    0 < masterGainTarget g ∧
    masterGainAt g t0 t0 ≤ masterGainAt g t0 (t0 + 1) ∧
    masterGainAt g t0 (t0 + 1) ≤ masterGainAt g t0 (t0 + 2) ∧
    stopGainAt v ts ts = v ∧
    stopGainAt v ts τ = v - v * (τ - ts) ∧
    stopGainAt v ts (ts + 1) = 0 ∧
    ((teardownAll (startNodes g)).all fun n =>
        !n.connected && (!(isSourceNode n.kind) || n.stopped)) = true := by
  have htar := masterGainTarget_pos g
  refine ⟨masterGainAt_start g t0, masterGainAt_mid g t0, masterGainAt_end g t0,
    htar, ?_, ?_, stopGainAt_start v ts, stopGainAt_mid v ts τ hτ0 hτ1,
    stopGainAt_end v ts, ?_⟩
  · rw [masterGainAt_start, masterGainAt_mid]; linarith
  · rw [masterGainAt_mid, masterGainAt_end]; linarith
  · cases g <;> first | exact absurd rfl hg | decide

theorem ambience_fade_timing_witness :
    (MusicGenre.TibetanBowls ≠ MusicGenre.NoMusic) ∧ ((10:ℚ) < 21/2) ∧
      ((21:ℚ)/2 < 10 + 1) ∧
    (masterGainAt MusicGenre.TibetanBowls 0 0 = 0 ∧
     masterGainAt MusicGenre.TibetanBowls 0 (0 + 1) =
       masterGainTarget MusicGenre.TibetanBowls / 2 ∧
     masterGainAt MusicGenre.TibetanBowls 0 (0 + 2) =
       masterGainTarget MusicGenre.TibetanBowls ∧
     0 < masterGainTarget MusicGenre.TibetanBowls ∧
     masterGainAt MusicGenre.TibetanBowls 0 0 ≤
       masterGainAt MusicGenre.TibetanBowls 0 (0 + 1) ∧
     masterGainAt MusicGenre.TibetanBowls 0 (0 + 1) ≤
       masterGainAt MusicGenre.TibetanBowls 0 (0 + 2) ∧
     stopGainAt (3/10) 10 10 = 3/10 ∧
     stopGainAt (3/10) 10 (21/2) = 3/10 - 3/10 * (21/2 - 10) ∧
     stopGainAt (3/10) 10 (10 + 1) = 0 ∧
     ((teardownAll (startNodes MusicGenre.TibetanBowls)).all fun n =>
         !n.connected && (!(isSourceNode n.kind) || n.stopped)) = true) :=
  ⟨by decide, by norm_num, by norm_num,
    ambience_fade_timing MusicGenre.TibetanBowls (by decide) 0 10 (3/10) (21/2)
      (by norm_num) (by norm_num)⟩

/-- C6: running the stop teardown twice over any genre's node graph is
harmless: the second run changes nothing (errors from re-stopping are
swallowed by the `try/catch`), and after the (first) fade window every
node is disconnected and every source node stopped — no dangling
connected nodes. -/
theorem ambience_stop_twice_safe (g : MusicGenre) :
    teardownAll (teardownAll (startNodes g)) = teardownAll (startNodes g) ∧
    ((teardownAll (startNodes g)).all fun n => !n.connected) = true ∧
    ((teardownAll (teardownAll (startNodes g))).all fun n => !n.connected) = true ∧
    ((teardownAll (startNodes g)).all fun n =>
        !(isSourceNode n.kind) || n.stopped) = true := by
  cases g <;> decide

/-! ## Offline mixdown renderer (`renderSessionToWav`, `src/unnamed/part_012`)

`renderSessionToWav` first computes `duration = voiceBuffer.duration + 2`
and constructs `new OfflineAudioContext(2, duration * sampleRate,
sampleRate)` at the voice buffer's sample rate — before and independently
of the genre branch. -/

structure OfflineContextSpec where
  numberOfChannels : ℕ
  length : ℚ
  sampleRate : ℚ
deriving Repr, DecidableEq

/-- The offline context `renderSessionToWav(voiceBuffer, musicGenre,
musicVolume, voiceVolume)` creates. -/
def renderSessionToWavContext (voiceDuration sampleRate : ℚ) (_musicGenre : MusicGenre)
    (_musicVolume _voiceVolume : ℚ) : OfflineContextSpec :=
  let duration := voiceDuration + 2
  { numberOfChannels := 2, length := duration * sampleRate, sampleRate := sampleRate }

/-- Duration in seconds of a rendered buffer: frame count over rate. -/
def renderedDurationSeconds (c : OfflineContextSpec) : ℚ := c.length / c.sampleRate

/-- C2: for every voice buffer and every genre (including `NoMusic`),
the offline rendering context has exactly 2 channels, runs at the voice
buffer's sample rate, and its frame count equals
`(voiceDuration + 2) * sampleRate` — a rendered duration of
`voiceDuration + 2` seconds; a 10-second voice buffer renders to 12
seconds. -/
theorem render_context_two_channels_plus_two_seconds
    (d sr mv vv : ℚ) (g : MusicGenre) (hsr : 0 < sr) :
    (renderSessionToWavContext d sr g mv vv).numberOfChannels = 2 ∧
    (renderSessionToWavContext d sr g mv vv).sampleRate = sr ∧
    (renderSessionToWavContext d sr g mv vv).length = (d + 2) * sr ∧
    renderedDurationSeconds (renderSessionToWavContext d sr g mv vv) = d + 2 ∧
    (d = 10 → renderedDurationSeconds (renderSessionToWavContext d sr g mv vv) = 12) := by
  have hdur : renderedDurationSeconds (renderSessionToWavContext d sr g mv vv) = d + 2 := by
    rw [renderedDurationSeconds, renderSessionToWavContext]
    field_simp
  exact ⟨rfl, rfl, rfl, hdur, fun h10 => by rw [hdur, h10]; norm_num⟩

theorem render_context_two_channels_plus_two_seconds_witness :
    (0 < (24000:ℚ)) ∧
    ((renderSessionToWavContext 10 24000 MusicGenre.NoMusic (1/2) 1).numberOfChannels = 2 ∧
     (renderSessionToWavContext 10 24000 MusicGenre.NoMusic (1/2) 1).sampleRate = 24000 ∧
     (renderSessionToWavContext 10 24000 MusicGenre.NoMusic (1/2) 1).length = (10 + 2) * 24000 ∧
     renderedDurationSeconds (renderSessionToWavContext 10 24000 MusicGenre.NoMusic (1/2) 1) =
       10 + 2 ∧
     ((10:ℚ) = 10 → renderedDurationSeconds
        (renderSessionToWavContext 10 24000 MusicGenre.NoMusic (1/2) 1) = 12)) :=
  ⟨by norm_num,
    render_context_two_channels_plus_two_seconds 10 24000 (1/2) 1 MusicGenre.NoMusic
      (by norm_num)⟩

/-! ## Live duplex playback queue (`useLiveSession.playAudioBuffer`,
`src/unnamed/part_007`)

Each incoming response chunk is scheduled at
`startTime = max(ctx.currentTime, nextStartTimeRef)`, and the queue
advances by `nextStartTimeRef = startTime + buffer.duration`. -/

/-- `playAudioBuffer` at hardware clock `currentTime` with a buffer of
duration `dur`, given the queue state `nextStart`: returns the scheduled
start time and the new queue state. -/
def playAudioBuffer (currentTime dur nextStart : ℚ) : ℚ × ℚ :=
  let startTime := max currentTime nextStart
  (startTime, startTime + dur)

/-- Scheduled start times of a sequence of chunks, each given as
(hardware-clock time at scheduling, buffer duration). -/
def scheduleChunks (nextStart : ℚ) : List (ℚ × ℚ) → List ℚ
  | [] => []
  | (t, d) :: rest =>
    let p := playAudioBuffer t d nextStart
    p.1 :: scheduleChunks p.2 rest

/-- The live-queue soundness property over a start-time list and the
chunk list it was scheduled from: every start is at least the clock time
read when its chunk was scheduled, and each next start is at least the
previous start plus the previous duration (no overlap). -/
def QueueOK : List ℚ → List (ℚ × ℚ) → Prop
  | [], [] => True
  | st :: starts, (t, d) :: chunks =>
      t ≤ st ∧
      (match starts with
       | [] => True
       | st2 :: _ => st + d ≤ st2) ∧
      QueueOK starts chunks
  | _, _ => False

/-- C7: for every sequence of arriving response buffers and every initial
queue state, the scheduled start times never overlap
(`start_{i+1} ≥ start_i + d_i`) and no chunk is scheduled before the
hardware clock time read at the moment it is scheduled. -/
theorem live_queue_no_overlap_no_past (chunks : List (ℚ × ℚ)) (nextStart : ℚ) :
    QueueOK (scheduleChunks nextStart chunks) chunks := by
  induction chunks generalizing nextStart with
  | nil => trivial
  | cons c rest ih =>
    obtain ⟨t, d⟩ := c
    refine ⟨le_max_left t nextStart, ?_, ih _⟩
    cases rest with
    | nil => trivial
    | cons c2 r2 =>
      obtain ⟨t2, d2⟩ := c2
      exact le_max_right t2 (max t nextStart + d)

/-! ## Float → 16-bit PCM conversion (`pcmFloat32ToBase64`,
`src/unnamed/part_007`)

Per sample: `s = Math.max(-1, Math.min(1, x))`, then
`int16[i] = s < 0 ? s * 0x8000 : s * 0x7FFF`.  Storing into an
`Int16Array` truncates the float toward zero and wraps modulo `2^16`
into the signed 16-bit range. -/

/-- `Math.max(-1, Math.min(1, x))`. -/
def clamp1 (x : ℚ) : ℚ := max (-1) (min 1 x)

/-- Truncation toward zero, as in the ToInteger step of a JS
float-to-int conversion. -/
def jsTrunc (q : ℚ) : ℤ := if q < 0 then ⌈q⌉ else ⌊q⌋

/-- The wrap of an integer into the signed 16-bit range performed by an
`Int16Array` store. -/
def toInt16 (n : ℤ) : ℤ := (n + 32768) % 65536 - 32768

/-- One sample of `pcmFloat32ToBase64`: clamp, scale asymmetrically
(`0x8000` on the negative side, `0x7FFF` on the non-negative side), and
store into the `Int16Array`. -/
def pcmSampleToInt16 (x : ℚ) : ℤ :=
  let s := clamp1 x
  toInt16 (jsTrunc (if s < 0 then s * 32768 else s * 32767))

/-- The conversion the claim states: `round(clamp(sample, -1, 1) * 32767)`
(JS `Math.round` rounds half toward `+∞`, as Lean's `round` on `ℚ`
does).  Written from the spec's words, for comparison with
`pcmSampleToInt16`. -/
def pcmSampleClaimed (x : ℚ) : ℤ := round (clamp1 x * 32767)

theorem toInt16_eq_self {n : ℤ} (h1 : -32768 ≤ n) (h2 : n ≤ 32767) :
    toInt16 n = n := by
  rw [toInt16, Int.emod_eq_of_lt (by linarith) (by linarith)]
  ring

theorem clamp1_le_one (x : ℚ) : clamp1 x ≤ 1 :=
  max_le (by norm_num) (min_le_left 1 x)

theorem neg_one_le_clamp1 (x : ℚ) : -1 ≤ clamp1 x := le_max_left (-1) _

/-- C8 (counterexample): at full-scale negative input `-1`, the code
produces `-32768` (`-1 * 0x8000`), while the claimed formula
`round(clamp(x, -1, 1) * 32767)` gives `-32767`. -/
theorem pcm_full_scale_negative_differs :
    pcmSampleToInt16 (-1) = -32768 ∧
    pcmSampleClaimed (-1) = -32767 ∧
    pcmSampleToInt16 (-1) ≠ pcmSampleClaimed (-1) := by
  have hc : clamp1 (-1) = -1 := by
    rw [clamp1]
    norm_num
  have hce : (⌈(-32768 : ℚ)⌉ : ℤ) = -32768 := by
    rw [show (-32768:ℚ) = ((-32768:ℤ):ℚ) by norm_num]
    exact Int.ceil_intCast _
  have hro : round ((-32767:ℚ)) = (-32767 : ℤ) := by
    rw [show (-32767:ℚ) = ((-32767:ℤ):ℚ) by norm_num]
    exact round_intCast _
  have hcode : pcmSampleToInt16 (-1) = -32768 := by
    rw [pcmSampleToInt16, hc, if_pos (by norm_num : (-1:ℚ) < 0),
      show ((-1:ℚ) * 32768) = -32768 by norm_num, jsTrunc,
      if_pos (by norm_num : (-32768:ℚ) < 0), hce, toInt16]
    norm_num
  have hclaim : pcmSampleClaimed (-1) = -32767 := by
    rw [pcmSampleClaimed, hc, show ((-1:ℚ) * 32767) = -32767 by norm_num, hro]
  refine ⟨hcode, hclaim, ?_⟩
  rw [hcode, hclaim]
  norm_num

/-- C8 (amended): each output sample is the truncation toward zero of the
clamped sample scaled by `32768` on the negative side and by `32767` on
the non-negative side (not the rounded `× 32767` value), and it always
lies in the signed 16-bit range `[-32768, 32767]` — the `Int16Array`
store never wraps. -/
theorem pcm_sample_trunc_in_range (x : ℚ) :
    pcmSampleToInt16 x =
      (if clamp1 x < 0 then jsTrunc (clamp1 x * 32768) else jsTrunc (clamp1 x * 32767)) ∧
    -32768 ≤ pcmSampleToInt16 x ∧ pcmSampleToInt16 x ≤ 32767 := by
  have hlo := neg_one_le_clamp1 x
  have hhi := clamp1_le_one x
  have hrange : -32768 ≤ jsTrunc (if clamp1 x < 0 then clamp1 x * 32768 else clamp1 x * 32767) ∧
      jsTrunc (if clamp1 x < 0 then clamp1 x * 32768 else clamp1 x * 32767) ≤ 32767 := by
    by_cases hneg : clamp1 x < 0
    · rw [if_pos hneg, jsTrunc, if_pos (by nlinarith)]
      constructor
      · have : (-32768 : ℚ) ≤ clamp1 x * 32768 := by nlinarith
        exact_mod_cast Int.le_ceil_iff.mpr (by push_cast; linarith)
      · have : clamp1 x * 32768 ≤ 0 := by nlinarith
        calc ⌈clamp1 x * 32768⌉ ≤ ⌈(0:ℚ)⌉ := Int.ceil_le_ceil this
          _ ≤ 32767 := by norm_num
    · push_neg at hneg
      rw [if_neg (not_lt.mpr hneg), jsTrunc, if_neg (not_lt.mpr (by nlinarith))]
      constructor
      · calc (-32768 : ℤ) ≤ ⌊(0:ℚ)⌋ := by norm_num
          _ ≤ ⌊clamp1 x * 32767⌋ := Int.floor_le_floor (by nlinarith)
      · calc ⌊clamp1 x * 32767⌋ ≤ ⌊(32767:ℚ)⌋ := Int.floor_le_floor (by nlinarith)
          _ = 32767 := by norm_num
  have heq : pcmSampleToInt16 x =
      (if clamp1 x < 0 then jsTrunc (clamp1 x * 32768) else jsTrunc (clamp1 x * 32767)) := by
    rw [pcmSampleToInt16, ← apply_ite jsTrunc]
    exact toInt16_eq_self hrange.1 hrange.2
  refine ⟨heq, ?_, ?_⟩ <;> rw [heq, ← apply_ite jsTrunc]
  · exact hrange.1
  · exact hrange.2

end LittleLotus
